import Mathlib

/-!  Verification of the CSV-to-time-series aggregation engine of the
     AIARForecaster repository: the functions `parseCSVLine` and `parseCSV`
     in `src/services/csvService.ts`.

     Modelling conventions.
     JavaScript numbers are modelled exactly: finite values as rationals,
     plus the special values `nan`, `posInf`, `negInf`.  Floating-point
     rounding is not modelled, so an equality whose truth on the program
     depends on the grouping of double additions is only asserted under
     hypotheses (whole-number amounts with absolute values summing to at
     most 2^53) on which every parse and every addition the program
     performs is exact, making the rational model coincide with it.
     The `new Date(rawDate)` fallback of the date normalizer is host- and
     locale-defined, so it is a parameter of the model (`DateOracle`,
     returning `getFullYear` and the zero-based `getMonth` on success,
     `none` when `getTime()` is NaN).
     JavaScript `Record` objects are association lists in insertion order
     (all keys involved are non-index string keys, for which the language
     guarantees insertion order); `Set` is a list without duplicates in
     insertion order.  `Array.prototype.sort` with the `localeCompare` /
     default comparator is a stable sort by (code-unit) lexicographic
     string order, modelled with `List.insertionSort`.  A rejected promise
     is `Except.error` carrying the message of the `Error`. -/

inductive JSNum where
  | nan : JSNum
  | posInf : JSNum
  | negInf : JSNum
  | fin : ℚ → JSNum
deriving DecidableEq

/-- Rational addition through `mkRat`; definitionally evaluable (the
    standard `Rat.add` is irreducible), provably equal to `· + ·`. -/
def qAdd (a b : ℚ) : ℚ := mkRat (a.num * b.den + b.num * a.den) (a.den * b.den)

theorem qAdd_eq (a b : ℚ) : qAdd a b = a + b := by
  rw [qAdd, Rat.add_def]
  simp [Rat.normalize_eq_mkRat]

/-- IEEE-754 addition on `JSNum` (exact on finite values). -/
def JSNum.add : JSNum → JSNum → JSNum
  | JSNum.nan, _ => JSNum.nan
  | _, JSNum.nan => JSNum.nan
  | JSNum.posInf, JSNum.negInf => JSNum.nan
  | JSNum.negInf, JSNum.posInf => JSNum.nan
  | JSNum.posInf, _ => JSNum.posInf
  | _, JSNum.posInf => JSNum.posInf
  | JSNum.negInf, _ => JSNum.negInf
  | _, JSNum.negInf => JSNum.negInf
  | JSNum.fin a, JSNum.fin b => JSNum.fin (qAdd a b)

/-- JavaScript falsiness of a number: `0`, `-0` and `NaN` are falsy. -/
def JSNum.falsy : JSNum → Bool
  | JSNum.nan => true
  | JSNum.fin q => q == 0
  | _ => false

def JSNum.isFinite : JSNum → Bool
  | JSNum.fin _ => true
  | _ => false

/-- The finite value of a `JSNum` (junk value 0 on the non-finite cases). -/
def qOf : JSNum → ℚ
  | JSNum.fin q => q
  | _ => 0

/-- The whitespace recognized by `String.prototype.trim` / `parseFloat`
    (restricted to its ASCII part; all inputs under study are ASCII). -/
def jsIsSpace (c : Char) : Bool :=
  c == (' ') || c == ('\t') || c == ('\n') || c == ('\r') || c == ('\x0b') || c == ('\x0c')

def trimCh (l : List Char) : List Char :=
  ((l.dropWhile jsIsSpace).reverse.dropWhile jsIsSpace).reverse

/-- `String.prototype.trim`. -/
def jsTrim (s : String) : String := String.mk (trimCh s.data)

/-- The character loop of `parseCSVLine` (src/services/csvService.ts:5-21):
    a `"` toggles the inside-quotes state, a `,` outside quotes closes the
    current field, every other character is appended to the current field. -/
def tokData : List Char → List Char → Bool → List String
  | [], cur, _ => [String.mk cur]
  | c :: rest, cur, q =>
    if c = ('"') then tokData rest cur (!q)
    else if c = (',') ∧ q = false then String.mk cur :: tokData rest [] false
    else tokData rest (cur ++ [c]) q

/-- The per-field cleanup of `parseCSVLine` (csvService.ts:24-30): trim,
    strip one layer of wrapping quotes, remove remaining `"` and `\r`. -/
def cleanField (s : String) : String :=
  let v := jsTrim s
  let w := if v.data.head? = some ('"') ∧ v.data.getLast? = some ('"')
           then (v.data.drop 1).dropLast else v.data
  String.mk (w.filter (fun c => !(c == ('"') || c == ('\r'))))

/-- `parseCSVLine` (csvService.ts:5-31). -/
def parseCSVLine (line : String) : List String :=
  (tokData line.data [] false).map cleanField

/-- Header canonicalization (csvService.ts:53):
    `h.toLowerCase().replace(/[^a-z0-9]/g, '')` (ASCII lowering). -/
def normalizeHeader (h : String) : String :=
  String.mk ((h.data.map Char.toLower).filter
    (fun c => decide (('a' ≤ c ∧ c ≤ 'z') ∨ ('0' ≤ c ∧ c ≤ '9'))))

/-- `Array.prototype.indexOf`, as an `Option`-valued first index. -/
def jsIndexOf (hs : List String) (k : String) : Option Nat :=
  hs.findIdx? (fun h => h == k)

/-- `text.split(/\r?\n/)`, part 1: split at every `'\n'`. -/
def splitLinesCh : List Char → List (List Char)
  | [] => [[]]
  | c :: rest =>
    if c = ('\n') then [] :: splitLinesCh rest
    else
      match splitLinesCh rest with
      | [] => [[c]]
      | l :: ls => (c :: l) :: ls

/-- `text.split(/\r?\n/)`, part 2: a `'\r'` directly before the `'\n'`
    belongs to the separator. -/
def stripCR (l : List Char) : List Char :=
  if l.getLast? = some ('\r') then l.dropLast else l

def splitLines (s : String) : List String :=
  (splitLinesCh s.data).map (fun l => String.mk (stripCR l))

def natOfDigits (l : List Char) : Nat :=
  l.foldl (fun n c => n * 10 + (c.toNat - (('0') : Char).toNat)) 0

/-- Exact value of a decimal literal: mantissa (integer and fraction digits
    as one integer), number of fraction digits, exponent; built with `mkRat`
    so that concrete literals evaluate definitionally. -/
def decValue (mant : Int) (fplen : Nat) (e : Int) : ℚ :=
  if 0 ≤ e - (fplen : Int) then ((mant * 10 ^ (e - (fplen : Int)).toNat : Int) : ℚ)
  else mkRat mant (10 ^ (((fplen : Int) - e).toNat))

/-- Exponent part of a decimal literal prefix: `[eE][+-]?digits`, taken only
    when at least one digit follows (longest valid prefix rule). -/
def expOf (l : List Char) : Int :=
  if l.head? = some ('e') ∨ l.head? = some ('E') then
    let t := l.drop 1
    let esign : Int := if t.head? = some ('-') then -1 else 1
    let t2 := if t.head? = some ('-') ∨ t.head? = some ('+') then t.drop 1 else t
    let ds := t2.takeWhile Char.isDigit
    if ds = [] then 0 else esign * (natOfDigits ds : Int)
  else 0

/-- ECMAScript `parseFloat`: skip leading whitespace, optional sign, then
    the longest prefix that is `Infinity` or a decimal literal
    (`digits [. digits] [exp]` or `. digits [exp]`); `NaN` when no such
    prefix exists.  Finite literals are kept exact: neither rounding nor
    overflow is modelled, so a literal such as `1e999` — `+Infinity` under
    ECMAScript — is a (huge) finite rational here; a property for which
    that distinction matters must carry a magnitude hypothesis that
    excludes such values (as the aggregation-consistency theorem does). -/
def parseFloat (s : String) : JSNum :=
  let cs0 := s.data.dropWhile jsIsSpace
  let sign : Int := if cs0.head? = some ('-') then -1 else 1
  let cs := if cs0.head? = some ('-') ∨ cs0.head? = some ('+') then cs0.drop 1 else cs0
  if cs.take 8 = ("Infinity").data then
    (if sign = 1 then JSNum.posInf else JSNum.negInf)
  else
    let ip := cs.takeWhile Char.isDigit
    let r1 := cs.dropWhile Char.isDigit
    let fp := if r1.head? = some ('.') then (r1.drop 1).takeWhile Char.isDigit else []
    let r2 := if r1.head? = some ('.') then (r1.drop 1).dropWhile Char.isDigit else r1
    if ip = [] ∧ fp = [] then JSNum.nan
    else JSNum.fin (decValue (sign * (natOfDigits (ip ++ fp) : Int)) fp.length (expOf r2))

/-- `rawAmount.replace(/,/g, '')` (csvService.ts:126). -/
def removeCommas (s : String) : String :=
  String.mk (s.data.filter (fun c => !(c == (','))))

/-- `rawDate.replace(/[^0-9]/g, '')` (csvService.ts:103). -/
def digitsOf (s : String) : List Char := s.data.filter Char.isDigit

/-- The host date parser behind `new Date(rawDate)`: `getFullYear` and the
    zero-based `getMonth` on success, `none` when `getTime()` is NaN. -/
abbrev DateOracle := String → Option (Int × Nat)

/-- A host on which `new Date` parsing always fails; used for concrete
    evaluations that never reach the calendar branch. -/
def noDate : DateOracle := fun _ => none

/-- `String(m).padStart(2, '0')` for the 1-based month number. -/
def pad2 (n : Nat) : String :=
  if n < 10 then ("0") ++ toString n else toString n

/-- Date normalization (csvService.ts:101-124): strip the non-digits; with
    exactly 6 digits use `YYYYMM`, with exactly 8 use the first 6 of
    `YYYYMMDD`; otherwise, when the raw date contains `-` or `/`, delegate
    to the host date parser; otherwise no key (row skipped). -/
def dateKeyOf (oracle : DateOracle) (rawDate : String) : Option String :=
  if (digitsOf rawDate).length = 6 then
    some (String.mk ((digitsOf rawDate).take 4 ++ ('-') :: (digitsOf rawDate).drop 4))
  else if (digitsOf rawDate).length = 8 then
    some (String.mk ((digitsOf rawDate).take 4 ++ ('-') :: ((digitsOf rawDate).take 6).drop 4))
  else if rawDate.data.contains ('-') ∨ rawDate.data.contains ('/') then
    match oracle rawDate with
    | some (y, m) => some (toString y ++ ("-") ++ pad2 (m + 1))
    | none => none
  else none

structure Row where
  dateKey : String
  amount : JSNum
  className : String
deriving DecidableEq

/-- `MonthlyData` of src/types.ts. -/
structure MonthlyData where
  date : String
  amount : JSNum
deriving DecidableEq

/-- `ParsedDataSet` of src/types.ts (`byClass` as an association list in
    the construction order of the `Record`). -/
structure ParsedDataSet where
  totalByDate : List MonthlyData
  byClass : List (String × List MonthlyData)
  availableClasses : List String
deriving DecidableEq

deriving instance DecidableEq for Except

/-- Lookup in a JavaScript object modelled as an association list. -/
def alookup {α : Type} (k : String) : List (String × α) → Option α
  | [] => none
  | p :: rest => if p.1 = k then some p.2 else alookup k rest

/-- Overwrite the (first) entry of an existing key, keeping its position. -/
def updateVal {α : Type} (k : String) (v : α) : List (String × α) → List (String × α)
  | [] => []
  | p :: rest => if p.1 = k then (k, v) :: rest else p :: updateVal k v rest

/-- `if (!m[k]) m[k] = 0; m[k] += v` (csvService.ts:134-135, 139-140):
    a missing, zero or NaN entry is (re)set to 0 before the addition. -/
def jsAccum (m : List (String × JSNum)) (k : String) (v : JSNum) :
    List (String × JSNum) :=
  match alookup k m with
  | none => m ++ [(k, (JSNum.fin 0).add v)]
  | some old => updateVal k (if old.falsy then (JSNum.fin 0).add v else old.add v) m

/-- `if (!classMap[c]) classMap[c] = {}` followed by the inner `jsAccum`
    (csvService.ts:138-140). -/
def classAccum (cm : List (String × List (String × JSNum))) (c k : String)
    (v : JSNum) : List (String × List (String × JSNum)) :=
  match alookup c cm with
  | none => cm ++ [(c, jsAccum [] k v)]
  | some inner => updateVal c (jsAccum inner k v) cm

/-- The accumulation state of the row loop (csvService.ts:78-81). -/
structure AggState where
  totalMap : List (String × JSNum)
  classMap : List (String × List (String × JSNum))
  foundClasses : List String
  validRowCount : Nat

def initAgg : AggState := ⟨[], [], [], 0⟩

/-- Folding one validated row into the accumulation state
    (csvService.ts:132-143). -/
def foldRow (st : AggState) (r : Row) : AggState :=
  { totalMap := jsAccum st.totalMap r.dateKey r.amount
  , classMap := classAccum st.classMap r.className r.dateKey r.amount
  , foundClasses :=
      if r.className ∈ st.foundClasses then st.foundClasses
      else st.foundClasses ++ [r.className]
  , validRowCount := st.validRowCount + 1 }

/-- `classIndex !== -1 ? cols[classIndex] : 'Unclassified'` (csvService.ts:95);
    an out-of-range access (`undefined`) is modelled as `""` (both are falsy
    and both trim to the empty string, which is all the later code observes). -/
def rawClassOf (ci : Option Nat) (cols : List String) : String :=
  match ci with
  | some i => cols.getD i ("")
  | none => ("Unclassified")

/-- `rawClass && rawClass.trim() !== '' ? rawClass.trim() : 'Unknown'`
    (csvService.ts:130). -/
def classNameOf (rc : String) : String :=
  if rc ≠ ("") ∧ jsTrim rc ≠ ("") then jsTrim rc else ("Unknown")

/-- The row normalizer: the body of the loop of csvService.ts:83-144 up to
    (and including) the `!isNaN(amount)` acceptance test.  `some r` exactly
    when the row is folded into the maps. -/
def normalizeRow (oracle : DateOracle) (di ai : Nat) (ci : Option Nat)
    (rawLine : String) : Option Row :=
  if jsTrim rawLine = ("") then none
  else
    let cols := parseCSVLine (jsTrim rawLine)
    if cols.length ≤ max di ai then none
    else
      let rawDate := cols.getD di ("")
      let rawAmount := cols.getD ai ("")
      if rawDate = ("") ∨ rawAmount = ("") then none
      else
        match dateKeyOf oracle rawDate with
        | none => none
        | some dk =>
          let amount := parseFloat (removeCommas rawAmount)
          if amount = JSNum.nan then none
          else some ⟨dk, amount, classNameOf (rawClassOf ci cols)⟩

/-- Header resolution (csvService.ts:53-75): date = `billperiod` else
    `monthly`; amount = `amount`; class = `accountclass` else `actcode`
    else `account_class` (the last is unreachable after normalization, kept
    verbatim); fails when date or amount is missing. -/
def resolvedIdx (lines : List String) : Option (Nat × Nat × Option Nat) :=
  let hs := (parseCSVLine (lines.headD (""))).map normalizeHeader
  let di := match jsIndexOf hs ("billperiod") with
    | some i => some i
    | none => jsIndexOf hs ("monthly")
  let ai := jsIndexOf hs ("amount")
  let ci := match jsIndexOf hs ("accountclass") with
    | some i => some i
    | none => match jsIndexOf hs ("actcode") with
      | some i => some i
      | none => jsIndexOf hs ("account_class")
  match di, ai with
  | some d, some a => some (d, a, ci)
  | _, _ => none

def emptyMsg : String := "ไฟล์ CSV ว่างเปล่า"

def insufficientMsg : String := "ไฟล์มีข้อมูลไม่เพียงพอ (ต้องมี Header และ Data)"

def missingColsMsg (hdr : String) : String :=
  ("รูปแบบไฟล์ CSV ไม่ถูกต้อง: ขาดคอลัมน์จำเป็น \x27billPeriod\x27 หรือ \x27amount\x27 (Headers Found: ") ++ hdr ++ (")")

def noDataMsg : String :=
  "ไม่พบข้อมูลที่สามารถประมวลผลได้ ตรวจสอบ format ของ billPeriod (YYYYMM) และ amount"

/-- Strict code-unit lexicographic order on character lists: the order by
    which `localeCompare` (on these ASCII keys) and the default
    `Array.prototype.sort` comparator compare strings. -/
def lexLt : List Char → List Char → Bool
  | [], [] => false
  | [], _ :: _ => true
  | _ :: _, [] => false
  | a :: as, b :: bs => if a < b then true else if b < a then false else lexLt as bs

/-- `lexLt` coincides with the standard lexicographic order on lists. -/
theorem lexLt_iff (a b : List Char) : lexLt a b = true ↔ List.lt a b := by
  induction a generalizing b with
  | nil =>
    cases b with
    | nil =>
      simp only [lexLt, Bool.false_eq_true, false_iff]
      intro h
      cases h
    | cons y bs =>
      simp only [lexLt, true_iff]
      exact List.lt.nil _ _
  | cons x as ih =>
    cases b with
    | nil =>
      simp only [lexLt, Bool.false_eq_true, false_iff]
      intro h
      cases h
    | cons y bs =>
      simp only [lexLt]
      split
      next hxy =>
        simp only [true_iff]
        exact List.lt.head _ _ hxy
      next hxy =>
        split
        next hyx =>
          simp only [Bool.false_eq_true, false_iff]
          intro h
          cases h with
          | head _ _ h1 => exact hxy h1
          | tail h1 h2 _ => exact h2 hyx
        next hyx =>
          rw [ih]
          constructor
          · exact fun h => List.lt.tail hxy hyx h
          · intro h
            cases h with
            | head _ _ h1 => exact absurd h1 hxy
            | tail _ _ h3 => exact h3

/-- `a.date.localeCompare(b.date) ≤ 0`: the ascending comparator of the
    dataset assembly (csvService.ts:153). -/
def mdLe (a b : MonthlyData) : Prop := lexLt b.date.data a.date.data = false

instance : DecidableRel mdLe := fun _ _ =>
  inferInstanceAs (Decidable (_ = false))

def sortMD (l : List MonthlyData) : List MonthlyData := l.insertionSort mdLe

/-- The default ascending string comparator of `Array.prototype.sort`. -/
def strLe (a b : String) : Prop := lexLt b.data a.data = false

instance : DecidableRel strLe := fun _ _ =>
  inferInstanceAs (Decidable (_ = false))

def sortStr (l : List String) : List String := l.insertionSort strLe

/-- The dataset assembly (csvService.ts:152-176). -/
def assemble (st : AggState) : ParsedDataSet :=
  { totalByDate := sortMD (st.totalMap.map (fun p => MonthlyData.mk p.1 p.2))
  , byClass := st.foundClasses.map
      (fun c => (c, sortMD (((alookup c st.classMap).getD []).map
        (fun p => MonthlyData.mk p.1 p.2))))
  , availableClasses := sortStr st.foundClasses }

/-- `parseCSV` (csvService.ts:33-190), as a function from the file text to
    the resolved dataset or the rejection message. -/
def parseCSV (oracle : DateOracle) (text : String) : Except String ParsedDataSet :=
  if jsTrim text = ("") then Except.error emptyMsg
  else
    let lines := splitLines text
    if lines.length < 2 then Except.error insufficientMsg
    else
      match resolvedIdx lines with
      | none => Except.error (missingColsMsg (lines.headD ("")))
      | some (di, ai, ci) =>
        let st := ((lines.drop 1).filterMap (normalizeRow oracle di ai ci)).foldl
          foldRow initAgg
        if st.validRowCount = 0 then Except.error noDataMsg
        else Except.ok (assemble st)

/-- The validated row set of a file (empty when a stage before the row loop
    fails); `parseCSV` folds exactly these rows. -/
def datasetRows (oracle : DateOracle) (text : String) : List Row :=
  match resolvedIdx (splitLines text) with
  | none => []
  | some (di, ai, ci) =>
    ((splitLines text).drop 1).filterMap (normalizeRow oracle di ai ci)

/-- Sum of a list of JavaScript numbers. -/
def sumJS (l : List JSNum) : JSNum := l.foldr JSNum.add (JSNum.fin 0)

/-- The amount a monthly series contributes for a month: the amount of its
    entry for that date, `0` when it has none. -/
def seriesLookup (d : String) (l : List MonthlyData) : JSNum :=
  match l.find? (fun m => m.date == d) with
  | some m => m.amount
  | none => JSNum.fin 0

/-- Lookup with the default 0 in an amount map. -/
def lookupD (k : String) (m : List (String × JSNum)) : JSNum :=
  (alookup k m).getD (JSNum.fin 0)

/-- The exact (rational) sum, over the classes of a class map, of the class
    amount recorded for month `k`. -/
def classSumQ (cm : List (String × List (String × JSNum))) (k : String) : ℚ :=
  (cm.map (fun p => qOf (lookupD k p.2))).sum

/-! ### Order lemmas for the sort comparator -/

theorem lexLt_irrefl (a : List Char) : lexLt a a = false := by
  induction a with
  | nil => rfl
  | cons x xs ih => simp [lexLt, ih]

theorem lexLt_asymm {a b : List Char} (h : lexLt a b = true) : lexLt b a = false := by
  induction a generalizing b with
  | nil =>
    cases b with
    | nil => rfl
    | cons y bs => rfl
  | cons x xs ih =>
    cases b with
    | nil => simp [lexLt] at h
    | cons y bs =>
      simp only [lexLt] at h ⊢
      rcases lt_trichotomy x y with hxy | hxy | hxy
      · rw [if_neg (asymm hxy), if_pos hxy]
      · subst hxy
        rw [if_neg (lt_irrefl x)] at h ⊢
        rw [if_neg (lt_irrefl x)] at h ⊢
        exact ih h
      · rw [if_neg (asymm hxy), if_pos hxy] at h
        exact absurd h (by simp)

theorem lexLt_trans {a b c : List Char} (h1 : lexLt a b = true)
    (h2 : lexLt b c = true) : lexLt a c = true := by
  induction a generalizing b c with
  | nil =>
    cases c with
    | nil =>
      cases b with
      | nil => exact h1
      | cons y bs => simp [lexLt] at h2
    | cons z cs => rfl
  | cons x xs ih =>
    cases b with
    | nil => simp [lexLt] at h1
    | cons y bs =>
      cases c with
      | nil => simp [lexLt] at h2
      | cons z cs =>
        simp only [lexLt] at h1 h2 ⊢
        rcases lt_trichotomy x y with hxy | hxy | hxy
        · rcases lt_trichotomy y z with hyz | hyz | hyz
          · rw [if_pos (lt_trans hxy hyz)]
          · subst hyz
            rw [if_pos hxy]
          · rw [if_neg (asymm hyz), if_pos hyz] at h2
            exact absurd h2 (by simp)
        · subst hxy
          rw [if_neg (lt_irrefl x)] at h1
          rw [if_neg (lt_irrefl x)] at h1
          rcases lt_trichotomy x z with hxz | hxz | hxz
          · rw [if_pos hxz]
          · subst hxz
            rw [if_neg (lt_irrefl x)] at h2 ⊢
            rw [if_neg (lt_irrefl x)] at h2 ⊢
            exact ih h1 h2
          · rw [if_neg (asymm hxz), if_pos hxz] at h2
            exact absurd h2 (by simp)
        · rw [if_neg (asymm hxy), if_pos hxy] at h1
          exact absurd h1 (by simp)

theorem lexLt_eq_of_not {a b : List Char} (h1 : lexLt a b = false)
    (h2 : lexLt b a = false) : a = b := by
  induction a generalizing b with
  | nil =>
    cases b with
    | nil => rfl
    | cons y bs => simp [lexLt] at h1
  | cons x xs ih =>
    cases b with
    | nil => simp [lexLt] at h2
    | cons y bs =>
      simp only [lexLt] at h1 h2
      rcases lt_trichotomy x y with hxy | hxy | hxy
      · rw [if_pos hxy] at h1
        exact absurd h1 (by simp)
      · subst hxy
        rw [if_neg (lt_irrefl x)] at h1 h2
        rw [if_neg (lt_irrefl x)] at h1 h2
        rw [ih h1 h2]
      · rw [if_pos hxy] at h2
        exact absurd h2 (by simp)

instance : IsTotal MonthlyData mdLe := by
  constructor
  intro a b
  cases hab : lexLt b.date.data a.date.data with
  | false => exact Or.inl hab
  | true => exact Or.inr (lexLt_asymm hab)

instance : IsTrans MonthlyData mdLe := by
  constructor
  intro a b c hab hbc
  simp only [mdLe] at hab hbc ⊢
  cases hca : lexLt c.date.data a.date.data with
  | false => rfl
  | true =>
    exfalso
    cases hbcd : lexLt b.date.data c.date.data with
    | true =>
      have h4 := lexLt_trans hbcd hca
      rw [h4] at hab
      exact absurd hab (by simp)
    | false =>
      have h5 := lexLt_eq_of_not hbcd hbc
      rw [← h5] at hca
      rw [hca] at hab
      exact absurd hab (by simp)

instance : IsTotal String strLe := by
  constructor
  intro a b
  cases hab : lexLt b.data a.data with
  | false => exact Or.inl hab
  | true => exact Or.inr (lexLt_asymm hab)

instance : IsTrans String strLe := by
  constructor
  intro a b c hab hbc
  simp only [strLe] at hab hbc ⊢
  cases hca : lexLt c.data a.data with
  | false => rfl
  | true =>
    exfalso
    cases hbcd : lexLt b.data c.data with
    | true =>
      have h4 := lexLt_trans hbcd hca
      rw [h4] at hab
      exact absurd hab (by simp)
    | false =>
      have h5 := lexLt_eq_of_not hbcd hbc
      rw [← h5] at hca
      rw [hca] at hab
      exact absurd hab (by simp)

/-! ### Association map lemmas -/

theorem alookup_eq_none_iff {α : Type} (k : String) (m : List (String × α)) :
    alookup k m = none ↔ k ∉ m.map Prod.fst := by
  induction m with
  | nil => simp [alookup]
  | cons p rest ih =>
    simp only [alookup, List.map_cons, List.mem_cons]
    split
    next h => simp [h]
    next h =>
      rw [ih]
      constructor
      · intro hk hor
        rcases hor with h1 | h2
        · exact h h1.symm
        · exact hk h2
      · intro hk
        intro hmem
        exact hk (Or.inr hmem)

theorem alookup_mem {α : Type} {k : String} {m : List (String × α)} {v : α}
    (h : alookup k m = some v) : (k, v) ∈ m := by
  induction m with
  | nil => simp [alookup] at h
  | cons p rest ih =>
    simp only [alookup] at h
    split at h
    next he =>
      obtain rfl : p.2 = v := by injection h
      have hp : (k, p.2) = p := by rw [← he]
      rw [hp]
      exact List.mem_cons_self _ _
    next he =>
      exact List.mem_cons_of_mem _ (ih h)

theorem alookup_of_mem_nodup {α : Type} {k : String} {m : List (String × α)} {v : α}
    (hnd : (m.map Prod.fst).Nodup) (h : (k, v) ∈ m) : alookup k m = some v := by
  induction m with
  | nil => simp at h
  | cons p rest ih =>
    simp only [List.map_cons, List.nodup_cons] at hnd
    rcases List.mem_cons.mp h with h1 | h2
    · subst h1
      simp [alookup]
    · have hk : p.1 ≠ k := by
        intro he
        exact hnd.1 (he ▸ (List.mem_map.mpr ⟨(k, v), h2, rfl⟩))
      simp only [alookup, if_neg hk]
      exact ih hnd.2 h2

theorem alookup_append_none {α : Type} {k : String} {m : List (String × α)}
    (h : alookup k m = none) (l : List (String × α)) :
    alookup k (m ++ l) = alookup k l := by
  induction m with
  | nil => simp
  | cons p rest ih =>
    simp only [alookup] at h
    simp only [List.cons_append, alookup]
    split at h
    next => exact absurd h (by simp)
    next he =>
      rw [if_neg he]
      exact ih h

theorem alookup_append_some {α : Type} {k : String} {m : List (String × α)} {v : α}
    (h : alookup k m = some v) (l : List (String × α)) :
    alookup k (m ++ l) = some v := by
  induction m with
  | nil => simp [alookup] at h
  | cons p rest ih =>
    simp only [alookup] at h
    simp only [List.cons_append, alookup]
    split at h
    next he =>
      rw [if_pos he]
      exact h
    next he =>
      rw [if_neg he]
      exact ih h

theorem map_fst_updateVal {α : Type} (k : String) (v : α) (m : List (String × α)) :
    (updateVal k v m).map Prod.fst = m.map Prod.fst := by
  induction m with
  | nil => rfl
  | cons p rest ih =>
    simp only [updateVal]
    split
    next h => simp [← h]
    next h => simp [ih]

theorem alookup_updateVal_self {α : Type} {k : String} {m : List (String × α)}
    (v : α) (hmem : k ∈ m.map Prod.fst) :
    alookup k (updateVal k v m) = some v := by
  induction m with
  | nil => simp at hmem
  | cons p rest ih =>
    simp only [updateVal]
    split
    next h => simp [alookup]
    next h =>
      simp only [alookup, if_neg h]
      apply ih
      simp only [List.map_cons, List.mem_cons] at hmem
      rcases hmem with h1 | h2
      · exact absurd h1.symm h
      · exact h2

theorem alookup_updateVal_ne {α : Type} {k k' : String} (hne : k' ≠ k)
    (v : α) (m : List (String × α)) :
    alookup k' (updateVal k v m) = alookup k' m := by
  induction m with
  | nil => rfl
  | cons p rest ih =>
    simp only [updateVal]
    split
    next h =>
      subst h
      simp only [alookup]
      rw [if_neg (fun he => hne he.symm), if_neg (fun he => hne he.symm)]
    next h =>
      simp only [alookup]
      split
      next => rfl
      next => exact ih

theorem mem_updateVal {α : Type} {p : String × α} {k : String} {v : α}
    {m : List (String × α)} (h : p ∈ updateVal k v m) : p ∈ m ∨ p = (k, v) := by
  induction m with
  | nil => simp [updateVal] at h
  | cons q rest ih =>
    simp only [updateVal] at h
    split at h
    next =>
      rcases List.mem_cons.mp h with h1 | h2
      · exact Or.inr h1
      · exact Or.inl (List.mem_cons_of_mem _ h2)
    next =>
      rcases List.mem_cons.mp h with h1 | h2
      · exact Or.inl (h1 ▸ List.mem_cons_self _ _)
      · rcases ih h2 with h3 | h4
        · exact Or.inl (List.mem_cons_of_mem _ h3)
        · exact Or.inr h4

/-! ### JSNum helper lemmas -/

theorem isFinite_add {a b : JSNum} (ha : a.isFinite = true) (hb : b.isFinite = true) :
    (a.add b).isFinite = true := by
  cases a with
  | fin qa =>
    cases b with
    | fin qb => rfl
    | nan => exact absurd hb (by simp [JSNum.isFinite])
    | posInf => exact absurd hb (by simp [JSNum.isFinite])
    | negInf => exact absurd hb (by simp [JSNum.isFinite])
  | nan => exact absurd ha (by simp [JSNum.isFinite])
  | posInf => exact absurd ha (by simp [JSNum.isFinite])
  | negInf => exact absurd ha (by simp [JSNum.isFinite])

theorem qOf_add {a b : JSNum} (ha : a.isFinite = true) (hb : b.isFinite = true) :
    qOf (a.add b) = qOf a + qOf b := by
  cases a with
  | fin qa =>
    cases b with
    | fin qb => simp [JSNum.add, qOf, qAdd_eq]
    | nan => exact absurd hb (by simp [JSNum.isFinite])
    | posInf => exact absurd hb (by simp [JSNum.isFinite])
    | negInf => exact absurd hb (by simp [JSNum.isFinite])
  | nan => exact absurd ha (by simp [JSNum.isFinite])
  | posInf => exact absurd ha (by simp [JSNum.isFinite])
  | negInf => exact absurd ha (by simp [JSNum.isFinite])

theorem falsy_fin {a : JSNum} (ha : a.isFinite = true) (hf : a.falsy = true) :
    a = JSNum.fin 0 := by
  cases a with
  | fin qa =>
    simp only [JSNum.falsy, beq_iff_eq] at hf
    rw [hf]
  | nan => exact absurd ha (by simp [JSNum.isFinite])
  | posInf => exact absurd hf (by simp [JSNum.falsy])
  | negInf => exact absurd hf (by simp [JSNum.falsy])

theorem fin_isFinite (q : ℚ) : (JSNum.fin q).isFinite = true := rfl

theorem qOf_fin (q : ℚ) : qOf (JSNum.fin q) = q := rfl

/-! ### jsAccum lemmas -/

def keysND {α : Type} (m : List (String × α)) : Prop := (m.map Prod.fst).Nodup

theorem keysND_jsAccum {m : List (String × JSNum)} (k : String) (v : JSNum)
    (hnd : keysND m) : keysND (jsAccum m k v) := by
  unfold jsAccum
  cases halo : alookup k m with
  | none =>
    unfold keysND
    rw [List.map_append]
    simp only [List.map_cons, List.map_nil]
    rw [List.nodup_append]
    refine ⟨hnd, List.nodup_singleton _, ?_⟩
    intro x hx hxk
    simp only [List.mem_singleton] at hxk
    subst hxk
    exact (alookup_eq_none_iff x m).mp halo hx
  | some old =>
    unfold keysND
    rw [map_fst_updateVal]
    exact hnd

theorem mapFin_jsAccum {m : List (String × JSNum)} {k : String} {v : JSNum}
    (hm : ∀ p ∈ m, (p.2).isFinite = true) (hv : v.isFinite = true) :
    ∀ p ∈ jsAccum m k v, (p.2).isFinite = true := by
  unfold jsAccum
  cases halo : alookup k m with
  | none =>
    intro p hp
    rcases List.mem_append.mp hp with h1 | h2
    · exact hm p h1
    · simp only [List.mem_singleton] at h2
      subst h2
      exact isFinite_add (fin_isFinite 0) hv
  | some old =>
    intro p hp
    rcases mem_updateVal hp with h1 | h2
    · exact hm p h1
    · subst h2
      have hold : old.isFinite = true := hm _ (alookup_mem halo)
      split
      · exact isFinite_add (fin_isFinite 0) hv
      · exact isFinite_add hold hv

theorem lookupD_jsAccum {m : List (String × JSNum)} {k : String} {v : JSNum}
    (hm : ∀ p ∈ m, (p.2).isFinite = true) (hv : v.isFinite = true) (k' : String) :
    qOf (lookupD k' (jsAccum m k v)) =
      qOf (lookupD k' m) + (if k' = k then qOf v else 0) := by
  unfold jsAccum
  cases halo : alookup k m with
  | none =>
    by_cases hk : k' = k
    · subst hk
      have h1 : alookup k' (m ++ [(k', (JSNum.fin 0).add v)]) =
          some ((JSNum.fin 0).add v) := by
        rw [alookup_append_none halo]
        simp [alookup]
      unfold lookupD
      rw [h1, halo]
      simp only [Option.getD_some, Option.getD_none, if_pos rfl]
      rw [qOf_add (fin_isFinite 0) hv, qOf_fin]
      simp
    · have h1 : alookup k' (m ++ [(k, (JSNum.fin 0).add v)]) = alookup k' m := by
        cases h3 : alookup k' m with
        | some w => rw [alookup_append_some h3]
        | none =>
          rw [alookup_append_none h3]
          simp only [alookup]
          rw [if_neg (fun he => hk he.symm)]
      unfold lookupD
      rw [h1, if_neg hk, add_zero]
  | some old =>
    have hold : old.isFinite = true := hm _ (alookup_mem halo)
    have hkmem : k ∈ m.map Prod.fst :=
      List.mem_map.mpr ⟨(k, old), alookup_mem halo, rfl⟩
    by_cases hk : k' = k
    · subst hk
      unfold lookupD
      rw [alookup_updateVal_self _ hkmem, halo]
      simp only [Option.getD_some, if_pos rfl]
      split
      next hfal =>
        rw [falsy_fin hold hfal]
        rw [qOf_add (fin_isFinite 0) hv]
        simp
      next hfal =>
        exact qOf_add hold hv
    · unfold lookupD
      rw [alookup_updateVal_ne hk, if_neg hk, add_zero]

/-! ### classAccum lemmas -/

theorem keysND_classAccum {cm : List (String × List (String × JSNum))}
    (c k : String) (v : JSNum) (hnd : keysND cm) : keysND (classAccum cm c k v) := by
  unfold classAccum
  cases halo : alookup c cm with
  | none =>
    unfold keysND
    rw [List.map_append]
    simp only [List.map_cons, List.map_nil]
    rw [List.nodup_append]
    refine ⟨hnd, List.nodup_singleton _, ?_⟩
    intro x hx hxc
    simp only [List.mem_singleton] at hxc
    subst hxc
    exact (alookup_eq_none_iff x cm).mp halo hx
  | some inner =>
    unfold keysND
    rw [map_fst_updateVal]
    exact hnd

theorem innerND_classAccum {cm : List (String × List (String × JSNum))}
    {c k : String} {v : JSNum} (hnd : ∀ p ∈ cm, keysND p.2) :
    ∀ p ∈ classAccum cm c k v, keysND p.2 := by
  unfold classAccum
  cases halo : alookup c cm with
  | none =>
    intro p hp
    rcases List.mem_append.mp hp with h1 | h2
    · exact hnd p h1
    · simp only [List.mem_singleton] at h2
      subst h2
      show keysND (jsAccum [] k v)
      exact keysND_jsAccum k v (by simp [keysND])
  | some inner =>
    intro p hp
    rcases mem_updateVal hp with h1 | h2
    · exact hnd p h1
    · subst h2
      show keysND (jsAccum inner k v)
      exact keysND_jsAccum k v (hnd _ (alookup_mem halo))

theorem innerFin_classAccum {cm : List (String × List (String × JSNum))}
    {c k : String} {v : JSNum} (hfin : ∀ p ∈ cm, ∀ q ∈ p.2, (q.2).isFinite = true)
    (hv : v.isFinite = true) :
    ∀ p ∈ classAccum cm c k v, ∀ q ∈ p.2, (q.2).isFinite = true := by
  unfold classAccum
  cases halo : alookup c cm with
  | none =>
    intro p hp
    rcases List.mem_append.mp hp with h1 | h2
    · exact hfin p h1
    · simp only [List.mem_singleton] at h2
      subst h2
      show ∀ q ∈ jsAccum [] k v, (q.2).isFinite = true
      exact mapFin_jsAccum (by simp) hv
  | some inner =>
    intro p hp
    rcases mem_updateVal hp with h1 | h2
    · exact hfin p h1
    · subst h2
      show ∀ q ∈ jsAccum inner k v, (q.2).isFinite = true
      exact mapFin_jsAccum (hfin _ (alookup_mem halo)) hv

theorem classSumQ_updateVal {cm : List (String × List (String × JSNum))}
    {c : String} {inner : List (String × JSNum)} (w : List (String × JSNum))
    (halo : alookup c cm = some inner) (k' : String) :
    classSumQ (updateVal c w cm) k' =
      classSumQ cm k' + qOf (lookupD k' w) - qOf (lookupD k' inner) := by
  induction cm with
  | nil => simp [alookup] at halo
  | cons p rest ih =>
    simp only [alookup] at halo
    simp only [updateVal]
    split at halo
    next he =>
      obtain rfl : p.2 = inner := by injection halo
      rw [if_pos he]
      simp only [classSumQ, List.map_cons, List.sum_cons]
      ring
    next he =>
      rw [if_neg he]
      simp only [classSumQ, List.map_cons, List.sum_cons] at *
      rw [ih halo]
      ring

theorem classSumQ_classAccum {cm : List (String × List (String × JSNum))}
    {c k : String} {v : JSNum}
    (hfin : ∀ p ∈ cm, ∀ q ∈ p.2, (q.2).isFinite = true) (hv : v.isFinite = true)
    (k' : String) :
    classSumQ (classAccum cm c k v) k' =
      classSumQ cm k' + (if k' = k then qOf v else 0) := by
  unfold classAccum
  cases halo : alookup c cm with
  | none =>
    unfold classSumQ
    rw [List.map_append, List.sum_append]
    simp only [List.map_cons, List.map_nil, List.sum_cons, List.sum_nil]
    have h1 := @lookupD_jsAccum [] k v (by simp) hv k'
    have h2 : qOf (lookupD k' ([] : List (String × JSNum))) = 0 := by
      simp [lookupD, alookup, qOf]
    rw [h1, h2]
    ring
  | some inner =>
    rw [classSumQ_updateVal _ halo]
    have h1 := @lookupD_jsAccum inner k v (hfin _ (alookup_mem halo)) hv k'
    rw [h1]
    ring

/-! ### Fold invariants of the row loop -/

/-- Structural invariant of the accumulation state: distinct keys in every
    map and the found-class set mirrors the class-map keys. -/
structure AggInv (st : AggState) : Prop where
  tnd : keysND st.totalMap
  cnd : keysND st.classMap
  innd : ∀ p ∈ st.classMap, keysND p.2
  fcls : st.foundClasses = st.classMap.map Prod.fst

theorem aggInv_foldRow {st : AggState} (hi : AggInv st) (r : Row) :
    AggInv (foldRow st r) := by
  constructor
  · exact keysND_jsAccum _ _ hi.tnd
  · exact keysND_classAccum _ _ _ hi.cnd
  · exact innerND_classAccum hi.innd
  · show (if r.className ∈ st.foundClasses then st.foundClasses
        else st.foundClasses ++ [r.className]) =
      (classAccum st.classMap r.className r.dateKey r.amount).map Prod.fst
    unfold classAccum
    cases halo : alookup r.className st.classMap with
    | none =>
      have hnm : r.className ∉ st.foundClasses := by
        rw [hi.fcls]
        exact (alookup_eq_none_iff _ _).mp halo
      rw [if_neg hnm, List.map_append, hi.fcls]
      rfl
    | some inner =>
      have hm : r.className ∈ st.foundClasses := by
        rw [hi.fcls]
        exact List.mem_map.mpr ⟨_, alookup_mem halo, rfl⟩
      rw [if_pos hm, map_fst_updateVal, hi.fcls]

theorem aggInv_foldl {st : AggState} (hi : AggInv st) (rows : List Row) :
    AggInv (rows.foldl foldRow st) := by
  induction rows generalizing st with
  | nil => exact hi
  | cons r rows ih => exact ih (aggInv_foldRow hi r)

theorem aggInv_init : AggInv initAgg := by
  constructor <;> simp [initAgg, keysND]

/-- Finite-amount invariant: every stored amount is finite and the total of
    every month is the rational sum over the classes. -/
structure AggFin (st : AggState) : Prop where
  tfin : ∀ p ∈ st.totalMap, (p.2).isFinite = true
  cfin : ∀ p ∈ st.classMap, ∀ q ∈ p.2, (q.2).isFinite = true
  sumEq : ∀ k, qOf (lookupD k st.totalMap) = classSumQ st.classMap k

theorem aggFin_foldRow {st : AggState} (hf : AggFin st) {r : Row}
    (hr : r.amount.isFinite = true) : AggFin (foldRow st r) := by
  constructor
  · exact mapFin_jsAccum hf.tfin hr
  · exact innerFin_classAccum hf.cfin hr
  · intro k
    show qOf (lookupD k (jsAccum st.totalMap r.dateKey r.amount)) =
      classSumQ (classAccum st.classMap r.className r.dateKey r.amount) k
    rw [lookupD_jsAccum hf.tfin hr, classSumQ_classAccum hf.cfin hr, hf.sumEq]

theorem aggFin_foldl {st : AggState} (hf : AggFin st) {rows : List Row}
    (hrows : ∀ r ∈ rows, r.amount.isFinite = true) :
    AggFin (rows.foldl foldRow st) := by
  induction rows generalizing st with
  | nil => exact hf
  | cons r rows ih =>
    exact ih (aggFin_foldRow hf (hrows r (List.mem_cons_self _ _)))
      (fun x hx => hrows x (List.mem_cons_of_mem _ hx))

theorem aggFin_init : AggFin initAgg := by
  constructor
  · simp [initAgg]
  · simp [initAgg]
  · intro k
    simp [initAgg, lookupD, alookup, classSumQ, qOf]

/-! ### Dataset assembly lemmas -/

theorem sortMD_perm (l : List MonthlyData) : List.Perm (sortMD l) l :=
  List.perm_insertionSort mdLe l

theorem sortMD_sorted (l : List MonthlyData) : List.Sorted mdLe (sortMD l) :=
  List.sorted_insertionSort mdLe l

theorem fin_of_isFinite {a : JSNum} (h : a.isFinite = true) : a = JSNum.fin (qOf a) := by
  cases a with
  | fin q => rfl
  | nan => exact absurd h (by simp [JSNum.isFinite])
  | posInf => exact absurd h (by simp [JSNum.isFinite])
  | negInf => exact absurd h (by simp [JSNum.isFinite])

theorem lookupD_isFinite {m : List (String × JSNum)}
    (h : ∀ q ∈ m, (q.2).isFinite = true) (d : String) :
    (lookupD d m).isFinite = true := by
  unfold lookupD
  cases halo : alookup d m with
  | none => rfl
  | some w => exact h _ (alookup_mem halo)

theorem sumJS_fin {l : List JSNum} (h : ∀ x ∈ l, x.isFinite = true) :
    sumJS l = JSNum.fin ((l.map qOf).sum) := by
  induction l with
  | nil => rfl
  | cons x xs ih =>
    have hx : x.isFinite = true := h x (List.mem_cons_self _ _)
    have hxs := ih (fun y hy => h y (List.mem_cons_of_mem _ hy))
    show (x.add (sumJS xs)) = _
    rw [hxs, fin_of_isFinite hx]
    show JSNum.fin (qAdd (qOf x) ((xs.map qOf).sum)) = _
    rw [qAdd_eq]
    simp [qOf]

/-- Looking a month up in the sorted sequence built from an amount map with
    distinct keys agrees with the map lookup. -/
theorem seriesLookup_sortMD {m : List (String × JSNum)} (hnd : keysND m) (d : String) :
    seriesLookup d (sortMD (m.map (fun p => MonthlyData.mk p.1 p.2))) = lookupD d m := by
  have hperm : List.Perm (sortMD (m.map (fun p => MonthlyData.mk p.1 p.2)))
      (m.map (fun p => MonthlyData.mk p.1 p.2)) := sortMD_perm _
  unfold seriesLookup
  cases halo : alookup d m with
  | some a =>
    have hmem : MonthlyData.mk d a ∈ sortMD (m.map (fun p => MonthlyData.mk p.1 p.2)) := by
      rw [hperm.mem_iff]
      exact List.mem_map.mpr ⟨(d, a), alookup_mem halo, rfl⟩
    have hsome : ((sortMD (m.map (fun p => MonthlyData.mk p.1 p.2))).find?
        (fun x => x.date == d)).isSome := by
      rw [List.find?_isSome]
      exact ⟨MonthlyData.mk d a, hmem, by simp⟩
    obtain ⟨x, hx⟩ := Option.isSome_iff_exists.mp hsome
    have hxmem : x ∈ m.map (fun p => MonthlyData.mk p.1 p.2) := by
      rw [← hperm.mem_iff]
      exact List.mem_of_find?_eq_some hx
    have hxdate : x.date = d := by
      have h2 := List.find?_some hx
      simpa using h2
    obtain ⟨q, hq, hqx⟩ := List.mem_map.mp hxmem
    have hq1 : q.1 = d := by rw [← hxdate, ← hqx]
    have h3 : alookup d m = some q.2 := by
      rw [← hq1]
      exact alookup_of_mem_nodup hnd hq
    rw [halo] at h3
    obtain rfl : a = q.2 := by injection h3
    rw [hx, ← hqx]
    simp [lookupD, halo]
  | none =>
    have hnone : (sortMD (m.map (fun p => MonthlyData.mk p.1 p.2))).find?
        (fun x => x.date == d) = none := by
      rw [List.find?_eq_none]
      intro x hx
      have hxmem : x ∈ m.map (fun p => MonthlyData.mk p.1 p.2) := by
        rw [← hperm.mem_iff]
        exact hx
      obtain ⟨q, hq, hqx⟩ := List.mem_map.mp hxmem
      simp only [beq_iff_eq]
      intro hd
      have hq1 : q.1 = d := by rw [← hd, ← hqx]
      have h3 : alookup d m = some q.2 := by
        rw [← hq1]
        exact alookup_of_mem_nodup hnd hq
      rw [halo] at h3
      exact absurd h3 (by simp)
    rw [hnone]
    simp [lookupD, halo]

theorem byClass_map_eq {cm : List (String × List (String × JSNum))}
    (hnd : keysND cm) (hinnd : ∀ p ∈ cm, keysND p.2) (d : String) :
    (cm.map Prod.fst).map
      (fun c => seriesLookup d (sortMD (((alookup c cm).getD []).map
        (fun p => MonthlyData.mk p.1 p.2)))) =
    cm.map (fun p => lookupD d p.2) := by
  induction cm with
  | nil => rfl
  | cons p rest ih =>
    have hnds : (p.1 ∉ rest.map Prod.fst) ∧ keysND rest := by
      have h2 : (p.1 :: rest.map Prod.fst).Nodup := hnd
      exact List.nodup_cons.mp h2
    simp only [List.map_cons]
    congr 1
    · have h1 : alookup p.1 (p :: rest) = some p.2 := by simp [alookup]
      rw [h1]
      simp only [Option.getD_some]
      exact seriesLookup_sortMD (hinnd p (List.mem_cons_self _ _)) d
    · rw [← ih hnds.2 (fun q hq => hinnd q (List.mem_cons_of_mem _ hq))]
      apply List.map_congr_left
      intro c hc
      have hcne : p.1 ≠ c := fun he => hnds.1 (he ▸ hc)
      have h3 : alookup c (p :: rest) = alookup c rest := by
        simp only [alookup, if_neg hcne]
      rw [h3]

/-- On an accumulation state satisfying both invariants, every total entry
    of the assembled dataset equals the sum of the class contributions. -/
theorem assemble_sum {st : AggState} (hi : AggInv st) (hf : AggFin st) :
    ∀ md ∈ (assemble st).totalByDate,
      md.amount = sumJS (((assemble st).byClass).map
        (fun p => seriesLookup md.date p.2)) := by
  intro md hmd
  simp only [assemble] at hmd ⊢
  have hmem : md ∈ st.totalMap.map (fun p => MonthlyData.mk p.1 p.2) :=
    (sortMD_perm _).mem_iff.mp hmd
  obtain ⟨q, hq, hqmd⟩ := List.mem_map.mp hmem
  have halo : alookup q.1 st.totalMap = some q.2 := alookup_of_mem_nodup hi.tnd hq
  have hdate : md.date = q.1 := by rw [← hqmd]
  have hamt : md.amount = q.2 := by rw [← hqmd]
  have hmap : (st.foundClasses.map
      (fun c => (c, sortMD (((alookup c st.classMap).getD []).map
        (fun p => MonthlyData.mk p.1 p.2))))).map (fun p => seriesLookup md.date p.2)
      = st.classMap.map (fun p => lookupD md.date p.2) := by
    rw [hi.fcls, List.map_map]
    exact byClass_map_eq hi.cnd hi.innd md.date
  rw [hmap, sumJS_fin]
  · rw [List.map_map]
    have h5 : lookupD md.date st.totalMap = q.2 := by
      rw [hdate]
      simp [lookupD, halo]
    rw [hamt, fin_of_isFinite (hf.tfin q hq)]
    congr 1
    have hsum := hf.sumEq md.date
    rw [h5] at hsum
    rw [hsum]
    rfl
  · intro x hx
    obtain ⟨p, hp, hpx⟩ := List.mem_map.mp hx
    rw [← hpx]
    exact lookupD_isFinite (hf.cfin p hp) md.date

/-- Sorting a list of monthly points with pairwise-distinct dates yields a
    strictly lexicographically ascending sequence. -/
theorem sortMD_pairwise_lt {l : List MonthlyData}
    (hnd : (l.map MonthlyData.date).Nodup) :
    List.Pairwise (fun a b => lexLt a.date.data b.date.data = true) (sortMD l) := by
  have hs : List.Sorted mdLe (sortMD l) := sortMD_sorted l
  have hperm := sortMD_perm l
  have hnd2 : ((sortMD l).map MonthlyData.date).Nodup :=
    ((hperm.map MonthlyData.date).nodup_iff).mpr hnd
  have hne : List.Pairwise (fun a b : MonthlyData => a.date ≠ b.date) (sortMD l) :=
    List.pairwise_map.mp hnd2
  have hand := List.Pairwise.and hne hs
  refine hand.imp ?_
  intro a b hab
  rcases hab with ⟨hne2, hle⟩
  cases h : lexLt a.date.data b.date.data with
  | true => rfl
  | false =>
    exfalso
    apply hne2
    have h4 : a.date.data = b.date.data := lexLt_eq_of_not h hle
    exact congrArg String.mk h4

/-! ### Line splitting and trimming lemmas -/

theorem splitLinesCh_ne_nil (l : List Char) : splitLinesCh l ≠ [] := by
  cases l with
  | nil => simp [splitLinesCh]
  | cons c rest =>
    unfold splitLinesCh
    split
    · simp
    · split <;> simp

theorem splitLinesCh_append {u : List Char} (hu : ('\n') ∉ u) (v : List Char) :
    splitLinesCh (u ++ ('\n') :: v) = u :: splitLinesCh v := by
  induction u with
  | nil => simp [splitLinesCh]
  | cons c cs ih =>
    have hc : c ≠ ('\n') := fun he => hu (he ▸ List.mem_cons_self _ _)
    have hcs : ('\n') ∉ cs := fun hm => hu (List.mem_cons_of_mem _ hm)
    simp only [List.cons_append]
    conv_lhs => unfold splitLinesCh
    rw [if_neg hc, ih hcs]

theorem mkStr_eq_empty_iff (l : List Char) : String.mk l = ("") ↔ l = [] := by
  constructor
  · intro h
    have h2 := congrArg String.data h
    simpa using h2
  · intro h
    rw [h]

theorem trimCh_nil_iff (l : List Char) : trimCh l = [] ↔ ∀ c ∈ l, jsIsSpace c = true := by
  unfold trimCh
  rw [List.reverse_eq_nil_iff, List.dropWhile_eq_nil_iff]
  constructor
  · intro h c hc
    have hsplit := List.takeWhile_append_dropWhile jsIsSpace l
    rw [← hsplit] at hc
    rcases List.mem_append.mp hc with h1 | h2
    · exact List.mem_takeWhile_imp h1
    · exact h c (List.mem_reverse.mpr h2)
  · intro h c hc
    exact h c ((List.dropWhile_sublist jsIsSpace).subset (List.mem_reverse.mp hc))

theorem jsTrim_eq_empty_iff (s : String) :
    jsTrim s = ("") ↔ ∀ c ∈ s.data, jsIsSpace c = true := by
  unfold jsTrim
  rw [mkStr_eq_empty_iff, trimCh_nil_iff]

theorem data_append (a b : String) : (a ++ b).data = a.data ++ b.data := rfl

theorem jsTrim_append_ne {hdr : String} (hne : jsTrim hdr ≠ ("")) (rest : String) :
    jsTrim (hdr ++ ("\n") ++ rest) ≠ ("") := by
  intro h
  apply hne
  rw [jsTrim_eq_empty_iff] at h ⊢
  intro c hc
  apply h
  rw [data_append, data_append]
  exact List.mem_append.mpr (Or.inl (List.mem_append.mpr (Or.inl hc)))

theorem splitLines_header {hdr : String} (hnl : ('\n') ∉ hdr.data)
    (hcr : hdr.data.getLast? ≠ some ('\r')) (rest : String) :
    splitLines (hdr ++ ("\n") ++ rest) = hdr :: splitLines rest := by
  unfold splitLines
  rw [data_append, data_append]
  have h1 : (("\n") : String).data = ('\n') :: [] := rfl
  rw [h1, List.append_assoc, List.singleton_append]
  rw [splitLinesCh_append hnl]
  simp only [List.map_cons]
  congr 1
  unfold stripCR
  rw [if_neg hcr]

theorem splitLines_length_pos (s : String) : 1 ≤ (splitLines s).length := by
  unfold splitLines
  rw [List.length_map]
  cases h : splitLinesCh s.data with
  | nil => exact absurd h (splitLinesCh_ne_nil _)
  | cons a l => simp

/-! ### Stage inversion lemmas for parseCSV -/

theorem normalizeRow_some {oracle : DateOracle} {di ai : Nat} {ci : Option Nat}
    {line : String} {r : Row}
    (h : normalizeRow oracle di ai ci line = some r) :
    r.className = classNameOf (rawClassOf ci (parseCSVLine (jsTrim line))) ∧
    r.amount = parseFloat (removeCommas ((parseCSVLine (jsTrim line)).getD ai (""))) ∧
    r.amount ≠ JSNum.nan ∧
    ¬ (parseCSVLine (jsTrim line)).length ≤ max di ai := by
  simp only [normalizeRow] at h
  split at h
  next => exact absurd h (by simp)
  next h1 =>
    split at h
    next => exact absurd h (by simp)
    next h2 =>
      split at h
      next => exact absurd h (by simp)
      next h3 =>
        split at h
        next => exact absurd h (by simp)
        next dk hdk =>
          split at h
          next => exact absurd h (by simp)
          next h4 =>
            injection h with h5
            rw [← h5]
            exact ⟨rfl, rfl, h4, h2⟩

theorem resolvedIdx_none_of_fail {lines : List String}
    (hfail :
      (jsIndexOf ((parseCSVLine (lines.headD (""))).map normalizeHeader) ("billperiod") = none ∧
       jsIndexOf ((parseCSVLine (lines.headD (""))).map normalizeHeader) ("monthly") = none) ∨
      jsIndexOf ((parseCSVLine (lines.headD (""))).map normalizeHeader) ("amount") = none) :
    resolvedIdx lines = none := by
  simp only [resolvedIdx]
  rcases hfail with ⟨hbp, hmo⟩ | ham
  · rw [hbp, hmo]
  · rw [ham]
    cases hdi : (match jsIndexOf ((parseCSVLine (lines.headD (""))).map normalizeHeader)
        ("billperiod") with
      | some i => some i
      | none => jsIndexOf ((parseCSVLine (lines.headD (""))).map normalizeHeader) ("monthly")) with
    | none => rfl
    | some d => rfl

theorem parseCSV_missingCols {oracle : DateOracle} {text : String}
    (h1 : jsTrim text ≠ (""))
    (h2 : ¬ (splitLines text).length < 2)
    (h3 : resolvedIdx (splitLines text) = none) :
    parseCSV oracle text =
      Except.error (missingColsMsg ((splitLines text).headD (""))) := by
  unfold parseCSV
  rw [if_neg h1, if_neg h2]
  simp only [h3]

theorem parseCSV_noData {oracle : DateOracle} {text : String} {di ai : Nat}
    {ci : Option Nat}
    (h1 : jsTrim text ≠ (""))
    (h2 : ¬ (splitLines text).length < 2)
    (h3 : resolvedIdx (splitLines text) = some (di, ai, ci))
    (h4 : ((splitLines text).drop 1).filterMap (normalizeRow oracle di ai ci) = []) :
    parseCSV oracle text = Except.error noDataMsg := by
  unfold parseCSV
  rw [if_neg h1, if_neg h2]
  simp only [h3, h4]
  rfl

theorem parseCSV_ok_inv {oracle : DateOracle} {text : String} {ds : ParsedDataSet}
    (h : parseCSV oracle text = Except.ok ds) :
    ds = assemble ((datasetRows oracle text).foldl foldRow initAgg) := by
  simp only [parseCSV] at h
  split at h
  next => exact absurd h (by simp)
  next h1 =>
    split at h
    next => exact absurd h (by simp)
    next h2 =>
      split at h
      next hres => exact absurd h (by simp)
      next di ai ci hres =>
        split at h
        next => exact absurd h (by simp)
        next h3 =>
          unfold datasetRows
          rw [hres]
          injection h with h4
          exact h4.symm

/-! ### Tokenizer lemmas -/

/-- While the inside-quotes state holds, a quote-free run of characters —
    commas included — is appended literally to the current field and no
    split takes place. -/
theorem tokData_inside (v : List Char) (hq : ('"') ∉ v) (cur : List Char) :
    tokData v cur true = [String.mk (cur ++ v)] := by
  induction v generalizing cur with
  | nil => simp [tokData]
  | cons c cs ih =>
    have hc : c ≠ ('"') := fun he => hq (he ▸ List.mem_cons_self _ _)
    have hcs : ('"') ∉ cs := fun hm => hq (List.mem_cons_of_mem _ hm)
    show tokData (c :: cs) cur true = _
    unfold tokData
    rw [if_neg hc, if_neg (by simp)]
    rw [ih hcs (cur ++ [c])]
    simp

/-- Outside quotes, a quote-free run splits at every delimiter: one more
    field than the number of commas. -/
theorem tokData_count (v : List Char) (hq : ('"') ∉ v) (cur : List Char) :
    (tokData v cur false).length = 1 + v.count (',') := by
  induction v generalizing cur with
  | nil => simp [tokData]
  | cons c cs ih =>
    have hc : c ≠ ('"') := fun he => hq (he ▸ List.mem_cons_self _ _)
    have hcs : ('"') ∉ cs := fun hm => hq (List.mem_cons_of_mem _ hm)
    by_cases hcomma : c = (',')
    · subst hcomma
      show (tokData ((',') :: cs) cur false).length = _
      unfold tokData
      rw [if_neg hc, if_pos ⟨rfl, rfl⟩]
      simp only [List.length_cons]
      rw [ih hcs []]
      rw [List.count_cons]
      simp
      omega
    · show (tokData (c :: cs) cur false).length = _
      unfold tokData
      rw [if_neg hc, if_neg (fun hand => hcomma hand.1)]
      rw [ih hcs (cur ++ [c])]
      rw [List.count_cons]
      simp [hcomma]

/-! ### Concrete files and datasets used by witnesses and counterexamples -/

def okFile : String :=
  "billPeriod,amount,accountClass\n202301,100,A\n202301,50,B\n202302,25,A\n"

def okDS : ParsedDataSet :=
  ParsedDataSet.mk
    [MonthlyData.mk ("2023-01") (JSNum.fin 150), MonthlyData.mk ("2023-02") (JSNum.fin 25)]
    [(("A"), [MonthlyData.mk ("2023-01") (JSNum.fin 100),
              MonthlyData.mk ("2023-02") (JSNum.fin 25)]),
     (("B"), [MonthlyData.mk ("2023-01") (JSNum.fin 50)])]
    [("A"), ("B")]

def infFile : String :=
  "billPeriod,amount,accountClass\n202301,Infinity,A\n202301,-Infinity,A\n202301,5,B\n"

def infDS : ParsedDataSet :=
  ParsedDataSet.mk
    [MonthlyData.mk ("2023-01") (JSNum.fin 5)]
    [(("A"), [MonthlyData.mk ("2023-01") JSNum.nan]),
     (("B"), [MonthlyData.mk ("2023-01") (JSNum.fin 5)])]
    [("A"), ("B")]

/-! ### The claims -/

/-- C1 (amended): For every parsed dataset whose validated rows all carry
    whole-number amounts with absolute values summing to at most 2^53, and
    for every canonical month key present in `totalByDate`, the amount
    recorded in `totalByDate` for that month equals the sum, over all class
    names in `byClass`, of that class's amount for the same month (a class
    with no entry for that month contributes 0).  The restriction is forced
    twice over.  First, a row amount of `Infinity` passes the `isNaN` guard
    and the NaN-reset of the accumulators then breaks the equality (see the
    counterexample).  Second, even all-finite amounts break it on the real
    program through double rounding: amounts 1e20 (class A), 1 (class B),
    -1e20 (class A) in one month give a real running total of
    (1e20 + 1) + -1e20 = 0 — the 1 is absorbed — against a class sum of
    0 + 1 = 1.  On the stated domain no such failure exists: every parsed
    amount and every partial sum the program ever stores is an integer of
    magnitude at most 2^53, each such integer is an exact IEEE-754 double,
    and each addition of two of them is performed exactly, so the exact
    rational model used here coincides with the program value for value.
    The bound hypothesis is exactly this transfer condition; the Lean
    proof, living in the exact model, needs only finiteness from it. -/
theorem c1_total_equals_class_sum (oracle : DateOracle) (text : String)
    (ds : ParsedDataSet) (h : parseCSV oracle text = Except.ok ds)
    (hwhole : ∀ r ∈ datasetRows oracle text,
      r.amount.isFinite = true ∧ (qOf r.amount).den = 1)
    (_hbound : ((datasetRows oracle text).map
      (fun r => (qOf r.amount).num.natAbs)).sum ≤ 2 ^ 53) :
    ∀ md ∈ ds.totalByDate,
      md.amount = sumJS (ds.byClass.map (fun p => seriesLookup md.date p.2)) := by
  have hfin : ∀ r ∈ datasetRows oracle text, r.amount.isFinite = true :=
    fun r hr => (hwhole r hr).1
  have hds := parseCSV_ok_inv h
  subst hds
  exact assemble_sum (aggInv_foldl aggInv_init _) (aggFin_foldl aggFin_init hfin)

/-- C1 witness: the three rows of `okFile` carry the whole-number amounts
    100, 50 and 25, summing to 175 ≤ 2^53, and the January total 150 is the
    sum of class A's 100 and class B's 50. -/
theorem c1_total_equals_class_sum_witness :
    (MonthlyData.mk ("2023-01") (JSNum.fin 150)).amount =
      sumJS (okDS.byClass.map
        (fun p => seriesLookup (MonthlyData.mk ("2023-01") (JSNum.fin 150)).date p.2)) :=
  c1_total_equals_class_sum noDate okFile okDS (by decide) (by decide) (by decide)
    (MonthlyData.mk ("2023-01") (JSNum.fin 150)) (by decide)

/-- C1 counterexample: with rows `Infinity`, `-Infinity` (class A) and `5`
    (class B) in the same month, the running total reaches NaN and is reset
    to 0 by the falsy test before adding 5, while class A's map keeps NaN:
    the dataset parses successfully, its total for 2023-01 is 5, yet the sum
    over the classes is NaN — the claim as stated fails on the code. -/
theorem c1_total_equals_class_sum_cex :
    parseCSV noDate infFile = Except.ok infDS ∧
    MonthlyData.mk ("2023-01") (JSNum.fin 5) ∈ infDS.totalByDate ∧
    sumJS (infDS.byClass.map
      (fun p => seriesLookup (MonthlyData.mk ("2023-01") (JSNum.fin 5)).date p.2)) =
      JSNum.nan ∧
    (MonthlyData.mk ("2023-01") (JSNum.fin 5)).amount ≠ JSNum.nan := by
  decide

/-- C2: for every successfully parsed dataset, `totalByDate` and every
    per-class series in `byClass` are strictly ascending in code-unit
    lexicographic order of the date strings (hence contain no duplicate
    dates); `lexLt` is the standard lexicographic list order by
    `lexLt_iff`. -/
theorem c2_sorted_strictly_ascending (oracle : DateOracle) (text : String)
    (ds : ParsedDataSet) (h : parseCSV oracle text = Except.ok ds) :
    List.Pairwise (fun a b => lexLt a.date.data b.date.data = true) ds.totalByDate ∧
    ∀ p ∈ ds.byClass,
      List.Pairwise (fun a b => lexLt a.date.data b.date.data = true) p.2 := by
  have hds := parseCSV_ok_inv h
  subst hds
  have hi : AggInv ((datasetRows oracle text).foldl foldRow initAgg) :=
    aggInv_foldl aggInv_init _
  constructor
  · show List.Pairwise _ (sortMD (((datasetRows oracle text).foldl foldRow
      initAgg).totalMap.map (fun p => MonthlyData.mk p.1 p.2)))
    apply sortMD_pairwise_lt
    rw [List.map_map]
    exact hi.tnd
  · intro p hp
    simp only [assemble] at hp
    obtain ⟨c, hc, hpc⟩ := List.mem_map.mp hp
    rw [← hpc]
    show List.Pairwise _ (sortMD (((alookup c ((datasetRows oracle text).foldl foldRow
      initAgg).classMap).getD []).map (fun p => MonthlyData.mk p.1 p.2)))
    apply sortMD_pairwise_lt
    rw [List.map_map]
    cases halo : alookup c ((datasetRows oracle text).foldl foldRow initAgg).classMap with
    | none => simp
    | some inner =>
      simp only [Option.getD_some]
      exact hi.innd _ (alookup_mem halo)

/-- C2 witness: the concrete dataset of `okFile` is strictly ascending. -/
theorem c2_sorted_strictly_ascending_witness :
    List.Pairwise (fun a b : MonthlyData => lexLt a.date.data b.date.data = true)
      okDS.totalByDate :=
  (c2_sorted_strictly_ascending noDate okFile okDS (by decide)).1

/-- C3: when stripping the non-digit characters of a raw date leaves
    exactly 6 digits, the canonical key is the first 4 digits, a hyphen,
    then the last 2; with exactly 8 digits the first 6 are used the same
    way; in particular "202309" ↦ "2023-09", "20230915" ↦ "2023-09" and
    "2023-09-15" ↦ "2023-09". -/
theorem c3_date_digit_rules (oracle : DateOracle) :
    (∀ s : String,
      ((digitsOf s).length = 6 →
        dateKeyOf oracle s =
          some (String.mk ((digitsOf s).take 4 ++ ('-') :: (digitsOf s).drop 4))) ∧
      ((digitsOf s).length = 8 →
        dateKeyOf oracle s =
          some (String.mk ((digitsOf s).take 4 ++ ('-') :: ((digitsOf s).take 6).drop 4)))) ∧
    dateKeyOf oracle ("202309") = some ("2023-09") ∧
    dateKeyOf oracle ("20230915") = some ("2023-09") ∧
    dateKeyOf oracle ("2023-09-15") = some ("2023-09") := by
  refine ⟨?_, rfl, rfl, rfl⟩
  intro s
  constructor
  · intro h6
    unfold dateKeyOf
    rw [if_pos h6]
  · intro h8
    unfold dateKeyOf
    rw [if_neg (by omega), if_pos h8]

/-- C3 witness: the 6-digit rule applied to "123456" and the dotted-date
    example "2023-09-15". -/
theorem c3_date_digit_rules_witness :
    dateKeyOf noDate ("123456") =
      some (String.mk ((digitsOf ("123456")).take 4 ++ ('-') ::
        (digitsOf ("123456")).drop 4)) ∧
    dateKeyOf noDate ("2023-09-15") = some ("2023-09") :=
  ⟨((c3_date_digit_rules noDate).1 ("123456")).1 (by decide),
   (c3_date_digit_rules noDate).2.2.2⟩

/-- C4: when the parse reaches the row loop (trimmed text non-empty, at
    least two lines, date and amount columns resolved) and zero rows
    survive normalization, `parseCSV` fails with the no-processable-data
    message — which names the expected `billPeriod (YYYYMM)` and `amount`
    format — and returns no dataset at all. -/
theorem c4_no_processable_error (oracle : DateOracle) (text : String)
    (di ai : Nat) (ci : Option Nat)
    (h1 : jsTrim text ≠ (""))
    (h2 : ¬ (splitLines text).length < 2)
    (h3 : resolvedIdx (splitLines text) = some (di, ai, ci))
    (h4 : ((splitLines text).drop 1).filterMap (normalizeRow oracle di ai ci) = []) :
    parseCSV oracle text = Except.error noDataMsg ∧
    ∀ ds : ParsedDataSet, parseCSV oracle text ≠ Except.ok ds := by
  have hmain := parseCSV_noData h1 h2 h3 h4
  refine ⟨hmain, ?_⟩
  intro ds hds
  rw [hmain] at hds
  exact absurd hds (by simp)

/-- C4 witness: a newline-terminated header-only file, and a file whose
    only data row has an unparseable date, both fail with the
    no-processable-data error. -/
theorem c4_no_processable_error_witness :
    parseCSV noDate ("billPeriod,amount\n") = Except.error noDataMsg ∧
    parseCSV noDate ("billPeriod,amount\nfoo,5\n") = Except.error noDataMsg :=
  ⟨(c4_no_processable_error noDate ("billPeriod,amount\n") 0 1 none (by decide)
      (by decide) (by decide) (by decide)).1,
   (c4_no_processable_error noDate ("billPeriod,amount\nfoo,5\n") 0 1 none (by decide)
      (by decide) (by decide) (by decide)).1⟩

/-- C5: a file whose normalized header resolves no date column (neither
    `billperiod` nor `monthly`) or no `amount` column fails with the
    missing-column setup error, whatever its data rows hold — before any
    row is processed; a missing class column is no error: every accepted
    row's class defaults to the placeholder "Unclassified". -/
theorem c5_header_resolution (oracle : DateOracle) (hdr rest : String)
    (hnl : ('\n') ∉ hdr.data) (hcr : hdr.data.getLast? ≠ some ('\r'))
    (hne : jsTrim hdr ≠ (""))
    (hfail :
      (jsIndexOf ((parseCSVLine hdr).map normalizeHeader) ("billperiod") = none ∧
       jsIndexOf ((parseCSVLine hdr).map normalizeHeader) ("monthly") = none) ∨
      jsIndexOf ((parseCSVLine hdr).map normalizeHeader) ("amount") = none) :
    parseCSV oracle (hdr ++ ("\n") ++ rest) = Except.error (missingColsMsg hdr) ∧
    ∀ di ai line r, normalizeRow oracle di ai none line = some r →
      r.className = ("Unclassified") := by
  constructor
  · have hsplit := splitLines_header hnl hcr rest
    have h2 : ¬ (splitLines (hdr ++ ("\n") ++ rest)).length < 2 := by
      rw [hsplit]
      simp only [List.length_cons]
      have h6 := splitLines_length_pos rest
      omega
    have h3 : resolvedIdx (splitLines (hdr ++ ("\n") ++ rest)) = none := by
      apply resolvedIdx_none_of_fail
      rw [hsplit]
      simpa using hfail
    have h7 := @parseCSV_missingCols oracle (hdr ++ ("\n") ++ rest)
      (jsTrim_append_ne hne rest) h2 h3
    rw [hsplit] at h7
    simpa using h7
  · intro di ai line r hrow
    have h5 := (normalizeRow_some hrow).1
    rw [h5]
    show classNameOf ("Unclassified") = ("Unclassified")
    decide

/-- C5 witness: the header "foo,bar" fails with the setup error regardless
    of the data row, and a concrete accepted row of a class-column-free
    file carries the class "Unclassified". -/
theorem c5_header_resolution_witness :
    parseCSV noDate (("foo,bar") ++ ("\n") ++ ("1,2")) =
      Except.error (missingColsMsg ("foo,bar")) ∧
    (Row.mk ("2023-01") (JSNum.fin 5) ("Unclassified")).className = ("Unclassified") :=
  ⟨(c5_header_resolution noDate ("foo,bar") ("1,2") (by decide) (by decide)
      (by decide) (Or.inl ⟨by decide, by decide⟩)).1,
   (c5_header_resolution noDate ("foo,bar") ("1,2") (by decide) (by decide)
      (by decide) (Or.inl ⟨by decide, by decide⟩)).2 0 1 ("202301,5")
     (Row.mk ("2023-01") (JSNum.fin 5) ("Unclassified")) (by decide)⟩

/-- C6: the tokenizer splits on the delimiter only while outside a quoted
    span — a quote toggles the state, and inside quotes a quote-free run is
    appended literally (no split, first conjunct) while outside quotes every
    delimiter splits (second conjunct); the quoted field `"Revenue, Net"`
    tokenizes as exactly one field with value `Revenue, Net`. -/
theorem c6_quoted_delimiter (v cur : List Char) (hq : ('"') ∉ v) :
    tokData v cur true = [String.mk (cur ++ v)] ∧
    (tokData v cur false).length = 1 + v.count (',') ∧
    parseCSVLine ("date,\x22Revenue, Net\x22,100") =
      [("date"), ("Revenue, Net"), ("100")] :=
  ⟨tokData_inside v hq cur, tokData_count v hq cur, by decide⟩

/-- C6 witness: the quoted-span behavior on the characters of
    `Revenue, Net` and the concrete line. -/
theorem c6_quoted_delimiter_witness :
    tokData (("Revenue, Net").data) [] true = [String.mk ([] ++ ("Revenue, Net").data)] ∧
    parseCSVLine ("date,\x22Revenue, Net\x22,100") =
      [("date"), ("Revenue, Net"), ("100")] :=
  ⟨(c6_quoted_delimiter (("Revenue, Net").data) [] (by decide)).1,
   (c6_quoted_delimiter (("Revenue, Net").data) [] (by decide)).2.2⟩

/-- C7: when the file has a class column but the row's class field trims to
    the empty string, the row is aggregated under "Unknown"; when the file
    has no class column, every accepted row is aggregated under the
    distinct placeholder "Unclassified". -/
theorem c7_class_placeholders (oracle : DateOracle) (di ai k : Nat)
    (line line2 : String) (r r2 : Row)
    (h : normalizeRow oracle di ai (some k) line = some r)
    (hblank : jsTrim ((parseCSVLine (jsTrim line)).getD k ("")) = (""))
    (h2 : normalizeRow oracle di ai none line2 = some r2) :
    r.className = ("Unknown") ∧ r2.className = ("Unclassified") := by
  constructor
  · have h5 := (normalizeRow_some h).1
    rw [h5]
    show classNameOf ((parseCSVLine (jsTrim line)).getD k ("")) = _
    unfold classNameOf
    rw [if_neg]
    intro hand
    exact hand.2 hblank
  · have h5 := (normalizeRow_some h2).1
    rw [h5]
    show classNameOf ("Unclassified") = ("Unclassified")
    decide

/-- C7 witness: a row with a blank class field lands in "Unknown"; a row of
    a file without a class column lands in "Unclassified". -/
theorem c7_class_placeholders_witness :
    (Row.mk ("2023-01") (JSNum.fin 5) ("Unknown")).className = ("Unknown") ∧
    (Row.mk ("2023-01") (JSNum.fin 7) ("Unclassified")).className = ("Unclassified") :=
  c7_class_placeholders noDate 0 1 2 ("202301,5, ") ("202301,7")
    (Row.mk ("2023-01") (JSNum.fin 5) ("Unknown"))
    (Row.mk ("2023-01") (JSNum.fin 7) ("Unclassified"))
    (by decide) (by decide) (by decide)

/-- C8 (amended): the amount of an accepted row is `parseFloat` of the
    comma-stripped field, and "1,234.50" yields 1234.5; a row whose amount
    parses to NaN is skipped, so no NaN amount is ever aggregated; but a
    row whose amount parses to ±Infinity is NOT skipped — the code tests
    only `isNaN` — so non-finite amounts can enter the aggregation maps, as
    the concrete `Infinity` file shows. -/
theorem c8_amount_parsing (oracle : DateOracle) (di ai : Nat) (ci : Option Nat)
    (line : String) (r : Row)
    (h : normalizeRow oracle di ai ci line = some r) :
    r.amount = parseFloat (removeCommas ((parseCSVLine (jsTrim line)).getD ai (""))) ∧
    r.amount ≠ JSNum.nan ∧
    parseFloat (removeCommas ("1,234.50")) = JSNum.fin (mkRat 2469 2) ∧
    parseCSV noDate ("billPeriod,amount\n202301,Infinity\n") =
      Except.ok (ParsedDataSet.mk [MonthlyData.mk ("2023-01") JSNum.posInf]
        [(("Unclassified"), [MonthlyData.mk ("2023-01") JSNum.posInf])]
        [("Unclassified")]) := by
  have h5 := normalizeRow_some h
  exact ⟨h5.2.1, h5.2.2.1, by decide, by decide⟩

/-- C8 witness: the accepted row "202301,5" carries amount
    `parseFloat "5"`, which is not NaN. -/
theorem c8_amount_parsing_witness :
    (Row.mk ("2023-01") (JSNum.fin 5) ("Unclassified")).amount =
      parseFloat (removeCommas ((parseCSVLine (jsTrim ("202301,5"))).getD 1 (""))) ∧
    (Row.mk ("2023-01") (JSNum.fin 5) ("Unclassified")).amount ≠ JSNum.nan :=
  ⟨(c8_amount_parsing noDate 0 1 none ("202301,5")
      (Row.mk ("2023-01") (JSNum.fin 5) ("Unclassified")) (by decide)).1,
   (c8_amount_parsing noDate 0 1 none ("202301,5")
      (Row.mk ("2023-01") (JSNum.fin 5) ("Unclassified")) (by decide)).2.1⟩

/-- C8 counterexample: the amount field "Infinity" parses (per ECMAScript
    `parseFloat`) to Infinity, which is not NaN, so the row is NOT skipped:
    a non-finite amount reaches the dataset, refuting "every amount
    contributing to the aggregation maps is finite". -/
theorem c8_amount_parsing_cex :
    normalizeRow noDate 0 1 none ("202301,Infinity") =
      some (Row.mk ("2023-01") JSNum.posInf ("Unclassified")) ∧
    JSNum.posInf.isFinite = false ∧
    parseCSV noDate ("billPeriod,amount\n202301,Infinity\n") =
      Except.ok (ParsedDataSet.mk [MonthlyData.mk ("2023-01") JSNum.posInf]
        [(("Unclassified"), [MonthlyData.mk ("2023-01") JSNum.posInf])]
        [("Unclassified")]) := by
  decide

/-- C9 (amended): stripping the non-digits of "09/2023" leaves exactly the
    6 digits "092023", so the 6-digit YYYYMM rule applies and produces the
    canonical key "0920-23"; the calendar-date branch is never consulted —
    the result is the same for every host date parser. -/
theorem c9_slash_date (oracle : DateOracle) :
    (digitsOf ("09/2023")).length = 6 ∧
    dateKeyOf oracle ("09/2023") = some ("0920-23") := ⟨rfl, rfl⟩

/-- C9 witness: the amended statement at the always-failing host parser. -/
theorem c9_slash_date_witness :
    dateKeyOf noDate ("09/2023") = some ("0920-23") := (c9_slash_date noDate).2

/-- C9 counterexample: under a host whose calendar parser always fails,
    "09/2023" still normalizes — to "0920-23" via the 6-digit rule (its
    digit count after stripping is 6) — so the claim that it falls to the
    general calendar-date parsing branch is false on the code. -/
theorem c9_slash_date_cex :
    (digitsOf ("09/2023")).length = 6 ∧
    dateKeyOf noDate ("09/2023") = some ("0920-23") ∧
    dateKeyOf noDate ("09/2023") ≠ none := by
  decide

/-- C10: the short-row guard compares the field count only against the
    larger of the date and amount indices, not the class index: a row with
    enough fields for date and amount but too few to reach the class column
    is still accepted, and its class is the placeholder "Unknown" even
    though the file does have a class column; the concrete file has its
    class column at index 5 and a two-field data row. -/
theorem c10_short_row_guard (oracle : DateOracle) (di ai k : Nat) (line : String)
    (r : Row) (hk : (parseCSVLine (jsTrim line)).length ≤ k)
    (h : normalizeRow oracle di ai (some k) line = some r) :
    ¬ (parseCSVLine (jsTrim line)).length ≤ max di ai ∧
    r.className = ("Unknown") ∧
    parseCSV noDate ("billPeriod,amount,a,b,c,accountClass\n202301,5\n") =
      Except.ok (ParsedDataSet.mk [MonthlyData.mk ("2023-01") (JSNum.fin 5)]
        [(("Unknown"), [MonthlyData.mk ("2023-01") (JSNum.fin 5)])]
        [("Unknown")]) := by
  have h5 := normalizeRow_some h
  refine ⟨h5.2.2.2, ?_, by decide⟩
  have hgd : rawClassOf (some k) (parseCSVLine (jsTrim line)) = ("") := by
    show (parseCSVLine (jsTrim line)).getD k ("") = ("")
    rw [List.getD_eq_getElem?_getD, List.getElem?_eq_none hk]
    rfl
  rw [h5.1, hgd]
  decide

/-- C10 witness: the two-field row "202301,5" with class column index 5. -/
theorem c10_short_row_guard_witness :
    ¬ (parseCSVLine (jsTrim ("202301,5"))).length ≤ max 0 1 ∧
    (Row.mk ("2023-01") (JSNum.fin 5) ("Unknown")).className = ("Unknown") :=
  ⟨(c10_short_row_guard noDate 0 1 5 ("202301,5")
      (Row.mk ("2023-01") (JSNum.fin 5) ("Unknown")) (by decide) (by decide)).1,
   (c10_short_row_guard noDate 0 1 5 ("202301,5")
      (Row.mk ("2023-01") (JSNum.fin 5) ("Unknown")) (by decide) (by decide)).2.1⟩
